import Mathlib

/-!
Verification development for the xorf-generator denylist tool.

The provided sources are the command layer (`src/cmd/filter.rs`,
`src/cmd/manifest.rs`).  The filter engine, signing codec, multisig protocol
and manifest records live in modules of the repository that are not among the
provided sources; those parts are modelled here from the specification
(`spec.md`), and every such definition is marked `Modelled from the spec:` in
its doc comment.  Definitions that embed code from the provided command files
cite the file they come from.
-/

namespace XorfGen

/-- An identity is the canonical byte encoding of a public key (spec §3:
"an opaque fixed-size public-key value; equality and a stable byte encoding
are the only required operations"). -/
abbrev Identity := List Nat

/-- Modelled from the spec: the 64-bit item hash "derived from its canonical
byte encoding" (spec §4.1); the filter engine source is not provided, so a
concrete deterministic 64-bit hash of a byte sequence stands in for it. -/
def hash64 (bs : List Nat) : Nat :=
  bs.foldl (fun a b => (a * 31 + b) % 2 ^ 64) 0

/-- Modelled from the spec: the seeded mixing step applied to an item's 64-bit
hash; reseeding on a construction retry replaces `seed` (spec §4.1, §9). -/
def mixSeed (seed h : Nat) : Nat :=
  (h * 11400714819323198485 + seed) % 2 ^ 64

/-- Modelled from the spec: the 32-bit fingerprint, "a 32-bit fingerprint value
distinct from the slot-selection hash" (spec §4.1): it is taken from the high
bits of the mixed hash while slot selection uses the low bits. -/
def fingerprint (seed h : Nat) : Nat :=
  mixSeed seed h / 2 ^ 32

/-- Modelled from the spec: the segment/size metadata stored with a filter,
"the segment/size metadata needed to recompute any item's three candidate
slots later" (spec §4.1, §6). -/
structure SegmentMeta where
  seed : Nat
  segmentLength : Nat
  segmentCount : Nat
  deriving DecidableEq

/-- Total number of slots of the fingerprint array: the segments overlap as
three consecutive windows, so the array spans `segmentCount + 2` windows. -/
def SegmentMeta.arrayLength (m : SegmentMeta) : Nat :=
  (m.segmentCount + 2) * m.segmentLength

/-- Modelled from the spec: the three candidate slot indices of an item,
derived "from its 64-bit hash and segment layout" (spec §4.1): a base segment
is selected from the mixed hash and the three slots live in three consecutive
length-`segmentLength` windows starting at that segment. -/
def SegmentMeta.slots (m : SegmentMeta) (h : Nat) : Nat × Nat × Nat :=
  let x := mixSeed m.seed h
  let seg := x % m.segmentCount
  let o0 := x / 2 ^ 8 % m.segmentLength
  let o1 := x / 2 ^ 16 % m.segmentLength
  let o2 := x / 2 ^ 24 % m.segmentLength
  (seg * m.segmentLength + o0,
   (seg + 1) * m.segmentLength + o1,
   (seg + 2) * m.segmentLength + o2)

/-- The candidate slots of an item as a list. -/
def slotList (m : SegmentMeta) (h : Nat) : List Nat :=
  [(m.slots h).1, (m.slots h).2.1, (m.slots h).2.2]

/-- Number of not-yet-retired items having slot `s` among their candidates
(the degree of slot `s` in the peeling process, spec §4.1). -/
def degree (m : SegmentMeta) (items : List Nat) (s : Nat) : Nat :=
  items.countP (fun h => decide (s ∈ slotList m h))

/-- Modelled from the spec: one peeling selection, "items whose candidate
slots currently have degree exactly one are retired first" (spec §4.1):
find a remaining item one of whose candidate slots has degree one, and
return it with that uniquely-available slot. -/
def findPeelable (m : SegmentMeta) (remaining : List Nat) : Option (Nat × Nat) :=
  remaining.findSome? fun h =>
    (slotList m h).findSome? fun s =>
      if degree m remaining s = 1 then some (h, s) else none

/-- Modelled from the spec: the peeling (elimination) process, fuelled by the
item count; returns the retirement order together with each retired item's
uniquely-available slot, or `none` when peeling stalls (spec §4.1). -/
def peelAux (m : SegmentMeta) : Nat → List Nat → Option (List (Nat × Nat))
  | _, [] => some []
  | 0, _ :: _ => none
  | fuel + 1, x :: xs =>
    match findPeelable m (x :: xs) with
    | none => none
    | some (h, s) =>
      (peelAux m fuel ((x :: xs).erase h)).map fun rest => (h, s) :: rest

/-- Peel a whole item list. -/
def peel (m : SegmentMeta) (items : List Nat) : Option (List (Nat × Nat)) :=
  peelAux m items.length items

/-- Modelled from the spec: one assignment of the fill-in pass, "assigning each
retired item's fingerprint, XORed with the fingerprints of the other two of
its candidate slots, into its uniquely-available slot" (spec §4.1): the
item's slot is cleared and receives the XOR of its fingerprint with the
array values at its three candidate slots. -/
def fillStep (m : SegmentMeta) (p : Nat × Nat) (arr : List Nat) : List Nat :=
  let s := (m.slots p.1).1
  let t := (m.slots p.1).2.1
  let u := (m.slots p.1).2.2
  let cleared := arr.set p.2 0
  cleared.set p.2
    (fingerprint m.seed p.1 ^^^ cleared.getD s 0 ^^^ cleared.getD t 0 ^^^ cleared.getD u 0)

/-- Fill the fingerprint array from a retirement stack: the stack is processed
last-retired-first (LIFO), starting from the all-zero array. -/
def fill (m : SegmentMeta) (stack : List (Nat × Nat)) : List Nat :=
  stack.foldr (fillStep m) (List.replicate m.arrayLength 0)

/-- Modelled from the spec: the membership test on hashed items, "reports true
iff the XOR of the three stored fingerprints equals the expected
fingerprint" (spec §4.1). -/
def containsHash (m : SegmentMeta) (arr : List Nat) (h : Nat) : Bool :=
  fingerprint m.seed h ==
    (arr.getD (m.slots h).1 0 ^^^ arr.getD (m.slots h).2.1 0 ^^^ arr.getD (m.slots h).2.2 0)

/-- Modelled from the spec: sizing, "choose a filter capacity proportional to
the item count (oversizing ratio in the 1.12-1.15x range, rounded up to the
scheme's required segment alignment)" (spec §4.1). -/
def chooseMeta (seed n : Nat) : SegmentMeta :=
  let capacity := n * 115 / 100 + 3
  let segmentCount := n / 64 + 1
  let segmentLength := capacity / (segmentCount + 2) + 1
  { seed := seed, segmentLength := segmentLength, segmentCount := segmentCount }

/-- Modelled from the spec: the descriptor, "the set of denied keys and denied
edges" (spec §3); edges are ordered source-target pairs. -/
structure Descriptor where
  denied_keys : List Identity
  denied_edges : List (Identity × Identity)
  deriving DecidableEq

/-- Modelled from the spec: the hashed item set of a descriptor: "each denied
key contributes one 64-bit hash derived from its canonical byte encoding;
each denied edge contributes one 64-bit hash derived from the concatenation
of its two members' canonical byte encodings, in source-to-target order"
(spec §4.1). -/
def itemHashes (d : Descriptor) : List Nat :=
  d.denied_keys.map hash64 ++ d.denied_edges.map fun e => hash64 (e.1 ++ e.2)

/-- Modelled from the spec: the filter artifact, `{serial, signature,
fingerprints, segment metadata}` (spec §3); the fingerprint array keeps the
source field name `filter` (used as `filter.filter` in `src/cmd/filter.rs`,
`Info::run`). -/
structure Filter where
  serial : Nat
  signature : List Nat
  meta : SegmentMeta
  filter : List Nat
  deriving DecidableEq

/-- Modelled from the spec: one construction attempt with a fixed seed; fails
exactly when peeling stalls (spec §4.1). -/
def buildAttempt (serial seed : Nat) (items : List Nat) : Option Filter :=
  let m := chooseMeta seed items.length
  (peel m items).map fun stack =>
    { serial := serial, signature := [], meta := m, filter := fill m stack }

/-- Modelled from the spec: the retry ceiling, "a hard retry-count ceiling,
after which construction fails permanently for that input" (spec §5). -/
def attemptLimit : Nat := 100

/-- Modelled from the spec: construction with sequential reseeded retries,
"if peeling stalls before completion the whole construction restarts with a
freshly reseeded hash function" (spec §4.1, §5). -/
def buildItems (serial : Nat) (items : List Nat) : Option Filter :=
  (List.range attemptLimit).findSome? fun seed => buildAttempt serial seed items

/-- Modelled from the spec: `Filter::build(serial, descriptor)` (spec §4.1,
§6), named `Filter::from_descriptor` at its call site in
`src/cmd/manifest.rs` (`Generate::run`). -/
def Filter.from_descriptor (serial : Nat) (d : Descriptor) : Option Filter :=
  buildItems serial (itemHashes d)

/-- Modelled from the spec: `Filter::contains(identity)` hashes the identity
the same way as at build time and runs the membership test (spec §4.1). -/
def Filter.contains (f : Filter) (key : Identity) : Bool :=
  containsHash f.meta f.filter (hash64 key)

/-- Modelled from the spec: `Filter::contains_edge(source, target)`,
"identical procedure using the edge's combined hash; never consults the
single-key containment path" (spec §4.1). -/
def Filter.contains_edge (f : Filter) (source target : Identity) : Bool :=
  containsHash f.meta f.filter (hash64 (source ++ target))

/-- Little-endian bytes of a 32-bit value (spec §6: "all integers fixed-width,
explicit byte order chosen once and fixed"). -/
def u32le (n : Nat) : List Nat :=
  [n % 256, n / 256 % 256, n / 65536 % 256, n / 16777216 % 256]

/-- Little-endian bytes of a 64-bit value. -/
def u64le (n : Nat) : List Nat :=
  u32le (n % 4294967296) ++ u32le (n / 4294967296)

/-- Read a little-endian 32-bit value off the front of a byte stream. -/
def takeU32 : List Nat → Option (Nat × List Nat)
  | b0 :: b1 :: b2 :: b3 :: rest =>
    some (b0 + 256 * b1 + 65536 * b2 + 16777216 * b3, rest)
  | _ => none

/-- Read a little-endian 64-bit value off the front of a byte stream. -/
def takeU64 (bs : List Nat) : Option (Nat × List Nat) := do
  let (lo, r1) ← takeU32 bs
  let (hi, r2) ← takeU32 r1
  some (lo + 4294967296 * hi, r2)

/-- Read exactly `n` raw bytes off the front of a byte stream; fails on a
truncated stream (spec §4.1: deserialization "never silently truncates or
pads"). -/
def takeBytes (n : Nat) (bs : List Nat) : Option (List Nat × List Nat) :=
  if n ≤ bs.length then some (bs.take n, bs.drop n) else none

/-- Read `n` consecutive little-endian 32-bit values. -/
def takeU32List : Nat → List Nat → Option (List Nat × List Nat)
  | 0, bs => some ([], bs)
  | n + 1, bs => do
    let (v, r1) ← takeU32 bs
    let (vs, r2) ← takeU32List n r1
    some (v :: vs, r2)

/-- Fixed-field byte encoding of the segment metadata (spec §6:
"segment_metadata (fixed fields)"). -/
def SegmentMeta.toBytes (m : SegmentMeta) : List Nat :=
  u64le m.seed ++ u32le m.segmentLength ++ u32le m.segmentCount

/-- Modelled from the spec: `Filter::to_bytes()`, the binary layout
`serial | signature_len | signature | segment_metadata | fingerprint_count |
fingerprints` (spec §6). -/
def Filter.to_bytes (f : Filter) : List Nat :=
  u32le f.serial ++ u32le f.signature.length ++ f.signature ++
    f.meta.toBytes ++ u32le f.filter.length ++ (f.filter.map u32le).flatten

/-- Modelled from the spec: `Filter::signing_bytes()` (named `to_signing_bytes`
at its call site in `src/cmd/manifest.rs`): "the same layout with
signature_len = 0 and no signature bytes present, serial retained"
(spec §6). -/
def Filter.to_signing_bytes (f : Filter) : List Nat :=
  u32le f.serial ++ u32le 0 ++
    f.meta.toBytes ++ u32le f.filter.length ++ (f.filter.map u32le).flatten

/-- Modelled from the spec: `Filter::from_bytes(bytes)` (spec §4.1, §6):
parses the fixed layout and "fails with a malformed-input error if lengths
are inconsistent or the byte stream is truncated". -/
def Filter.from_bytes (bs : List Nat) : Option Filter := do
  let (serial, r1) ← takeU32 bs
  let (sigLen, r2) ← takeU32 r1
  let (sig, r3) ← takeBytes sigLen r2
  let (seed, r4) ← takeU64 r3
  let (segLen, r5) ← takeU32 r4
  let (segCount, r6) ← takeU32 r5
  let (count, r7) ← takeU32 r6
  let (fps, r8) ← takeU32List count r7
  if r8 = [] then
    some { serial := serial, signature := sig,
           meta := { seed := seed, segmentLength := segLen, segmentCount := segCount },
           filter := fps }
  else none

/-- Modelled from the spec: reading a filter back from its signing data (the
`Filter::from_signing_path` input of `src/cmd/filter.rs` `Generate::run` and
`src/cmd/manifest.rs` `Verify::run`); signing data uses the same layout with
an empty signature (spec §6). -/
def Filter.from_signing_bytes (bs : List Nat) : Option Filter :=
  Filter.from_bytes bs

/-- Modelled from the spec: stamping the signature and serial into a built
filter, "`signature` and `serial` are the only fields mutated
post-construction (stamped in afterward by the signing step)" (spec §3);
embeds the two assignments of `src/cmd/filter.rs` `Generate::run`. -/
def Filter.stamp_signature (f : Filter) (sig : List Nat) (serial : Nat) : Filter :=
  { f with signature := sig, serial := serial }

/-- Modelled from the spec: the content hash, "a cryptographic hash of the
signing bytes" (spec §4.2); the signing codec source is not provided, so a
concrete deterministic 32-byte digest stands in for the hash function. -/
def hashBytes (bs : List Nat) : List Nat :=
  let acc := bs.foldl (fun a b => (a * 1099511628211 + b + 1) % 2 ^ 64) 14695981039346656037
  (List.range 32).map fun i => acc / 2 ^ (i % 8 * 8) % 256

/-- Modelled from the spec: `Filter::hash()`, the digest of the signing bytes
"used both as the commitment recorded in the Manifest and as the message
digest that per-signer signatures are computed over" (spec §4.2). -/
def Filter.hash (f : Filter) : List Nat :=
  hashBytes f.to_signing_bytes

/-- Character of a 6-bit value in the standard base64 alphabet. -/
def b64charOf (v : Nat) : Nat :=
  if v < 26 then 65 + v
  else if v < 52 then 97 + (v - 26)
  else if v < 62 then 48 + (v - 52)
  else if v = 62 then 43
  else 47

/-- Inverse of the standard base64 alphabet; `none` off the alphabet. -/
def b64valOf (c : Nat) : Option Nat :=
  if 65 ≤ c ∧ c ≤ 90 then some (c - 65)
  else if 97 ≤ c ∧ c ≤ 122 then some (26 + (c - 97))
  else if 48 ≤ c ∧ c ≤ 57 then some (52 + (c - 48))
  else if c = 43 then some 62
  else if c = 47 then some 63
  else none

/-- Standard (padded) base64 encoding of a byte sequence, as the list of
character codes (the `STANDARD` engine used in `src/cmd/manifest.rs`). -/
def b64encode : List Nat → List Nat
  | [] => []
  | [b0] =>
    [b64charOf (b0 * 65536 / 262144), b64charOf (b0 * 65536 / 4096 % 64), 61, 61]
  | [b0, b1] =>
    [b64charOf ((b0 * 65536 + b1 * 256) / 262144),
     b64charOf ((b0 * 65536 + b1 * 256) / 4096 % 64),
     b64charOf ((b0 * 65536 + b1 * 256) / 64 % 64), 61]
  | b0 :: b1 :: b2 :: b3 :: rest =>
    b64charOf ((b0 * 65536 + b1 * 256 + b2) / 262144) ::
    b64charOf ((b0 * 65536 + b1 * 256 + b2) / 4096 % 64) ::
    b64charOf ((b0 * 65536 + b1 * 256 + b2) / 64 % 64) ::
    b64charOf ((b0 * 65536 + b1 * 256 + b2) % 64) ::
    b64encode (b3 :: rest)
  | [b0, b1, b2] =>
    [b64charOf ((b0 * 65536 + b1 * 256 + b2) / 262144),
     b64charOf ((b0 * 65536 + b1 * 256 + b2) / 4096 % 64),
     b64charOf ((b0 * 65536 + b1 * 256 + b2) / 64 % 64),
     b64charOf ((b0 * 65536 + b1 * 256 + b2) % 64)]

/-- Standard (strict) base64 decoding: groups of four characters, padding only
at the end, trailing bits required to be zero; `none` on malformed input. -/
def b64decode : List Nat → Option (List Nat)
  | [] => some []
  | c0 :: c1 :: c2 :: c3 :: rest => do
    let v0 ← b64valOf c0
    let v1 ← b64valOf c1
    if c2 = 61 then
      if c3 = 61 ∧ rest = [] ∧ v1 % 16 = 0 then some [v0 * 4 + v1 / 16]
      else none
    else do
      let v2 ← b64valOf c2
      if c3 = 61 then
        if rest = [] ∧ v2 % 4 = 0 then
          some [v0 * 4 + v1 / 16, v1 % 16 * 16 + v2 / 4]
        else none
      else do
        let v3 ← b64valOf c3
        let bs ← b64decode rest
        some ((v0 * 4 + v1 / 16) :: (v1 % 16 * 16 + v2 / 4) :: (v2 % 4 * 64 + v3) :: bs)
  | _ => none

/-- Modelled from the spec: the set of trusted signer public keys (spec §3);
the field keeps the source name `public_keys` (used in `src/cmd/manifest.rs`,
`Generate::run`). -/
structure PublicKeyManifest where
  public_keys : List Identity
  deriving DecidableEq

/-- Modelled from the spec: `Derive(PublicKeyManifest) -> Identity`,
"deterministically combines the ordered signer set into one composite
verification key" (spec §4.3); called `public_key()` in both command files.
The combination here is order-sensitive concatenation fed to the digest. -/
def PublicKeyManifest.public_key (km : PublicKeyManifest) : Except Unit Identity :=
  .ok (hashBytes km.public_keys.flatten)

/-- Modelled from the spec: the aggregate signature that the composite key
accepts for a given message — the one "verifiable only against the composite
Identity from Derive" (spec §4.3); a concrete deterministic stand-in for the
multisig scheme. -/
def aggSignature (compositeKey : Identity) (msg : List Nat) : List Nat :=
  hashBytes (compositeKey ++ msg)

/-- Modelled from the spec: an individual signer's deterministic signature
over a message, checked "against that signer's own key" (spec §3, §4.3). -/
def signerSignature (signer : Identity) (msg : List Nat) : List Nat :=
  hashBytes (signer ++ hashBytes msg)

/-- Error kinds surfaced by the embedded commands (spec §7). -/
inductive CmdError
  | fileExists
  | constructionFailure
  | malformedInput
  | verificationFailure
  | decodeFailure
  deriving DecidableEq

/-- Modelled from the spec: `Filter::verify(composite_identity)`, "recomputes
SigningBytes(Filter) and checks the aggregate signature against the
composite key", reporting failure as an explicit result, never a fatal error
(spec §4.3); used in `src/cmd/filter.rs` `Verify::run` and
`Generate::run`. -/
def Filter.verify (f : Filter) (key : Identity) : Except CmdError Unit :=
  if f.signature = aggSignature key f.to_signing_bytes then .ok () else .error .verificationFailure

/-- Modelled from the spec: one per-signer manifest entry,
`{signer, signature}` (spec §3). -/
structure ManifestSignature where
  signer : Identity
  signature : List Nat
  deriving DecidableEq

/-- Modelled from the spec: the fresh (yet unsigned) manifest entry created
for each trusted signer by manifest generation ("a manifest file that can be
used to add signatures to", `src/cmd/manifest.rs`); the signature starts
empty. -/
def ManifestSignature.ofKey (pk : Identity) : ManifestSignature :=
  { signer := pk, signature := [] }

/-- Modelled from the spec: the result record of checking one signer's
signature, serialized with a `verified` flag (spec §6: manifest signatures
carry `verified: bool` when displayed). -/
structure ManifestSignatureVerify where
  signature : ManifestSignature
  verified : Bool
  deriving DecidableEq

/-- Modelled from the spec: `VerifyManifestSignature(ManifestSignature,
signing_bytes) -> bool`, "checks one signer's individual signature against
their own Identity and the given signing bytes" and reports the outcome as
an explicit value (spec §4.3); used in `src/cmd/manifest.rs`
`Verify::run`. -/
def ManifestSignature.verify (s : ManifestSignature) (signingBytes : List Nat) :
    ManifestSignatureVerify :=
  { signature := s, verified := decide (s.signature = signerSignature s.signer signingBytes) }

/-- Modelled from the spec: the manifest record `{serial, hash, signatures}`
(spec §3, §6); `hash` is the base64 string (as character codes). -/
structure Manifest where
  serial : Nat
  hash : List Nat
  signatures : List ManifestSignature
  deriving DecidableEq

/-- Modelled from the spec: `Manifest::sign(public_key_manifest)`, which
produces "the single aggregate signature stamped into Filter.signature"
from the per-signer signatures collected in the manifest (spec §4.3); used
in `src/cmd/filter.rs` `Generate::run`. -/
def Manifest.sign (man : Manifest) (_km : PublicKeyManifest) : Except CmdError (List Nat) :=
  .ok (man.signatures.map (fun s => s.signature)).flatten

/-- Contents a command can persist: raw bytes or a manifest document. -/
inductive FileContent
  | bytes (bs : List Nat)
  | manifestDoc (m : Manifest)
  deriving DecidableEq

/-- The file system visible to the embedded commands, as the list of
persisted files (most recent write first). -/
structure FileSys where
  files : List (String × FileContent)
  deriving DecidableEq

/-- Does a file exist? -/
def FileSys.hasFile (fs : FileSys) (p : String) : Bool :=
  fs.files.any fun e => e.1 == p

/-- Persist a file (overwriting any previous entry). -/
def FileSys.writeFile (fs : FileSys) (p : String) (c : FileContent) : FileSys :=
  { files := (p, c) :: fs.files }

/-- Modelled from the spec: `open_output_file(path, check_exists)` from the
command module (not among the provided sources; its two call sites pass
`!force` for the manifest file and `false` elsewhere): when asked to check,
it fails if the file already exists, per the `force` flag doc "Whether to
force overwrite an existing manifest file" (`src/cmd/manifest.rs`). -/
def open_output_file (path : String) (checkExists : Bool) (fs : FileSys) :
    Except CmdError Unit :=
  if checkExists && fs.hasFile path then .error .fileExists else .ok ()

/-- Embeds `Generate::run` of `src/cmd/manifest.rs`: build the filter from the
descriptor and serial, hash it, create one empty signature entry per trusted
signer, write the manifest file (existence-checked unless `force`), then
write the signing data file (never existence-checked).  Reading the
descriptor and key files is out-of-scope I/O, so their parsed values are
inputs. -/
def manifestGenerateRun (d : Descriptor) (km : PublicKeyManifest) (serial : Nat)
    (force : Bool) (manifestPath dataPath : String) (fs : FileSys) :
    FileSys × Except CmdError Manifest :=
  match Filter.from_descriptor serial d with
  | none => (fs, .error .constructionFailure)
  | some filt =>
    let filterHash := filt.hash
    let signatures := km.public_keys.map ManifestSignature.ofKey
    match open_output_file manifestPath (!force) fs with
    | .error e => (fs, .error e)
    | .ok () =>
      let man : Manifest :=
        { serial := serial, hash := b64encode filterHash, signatures := signatures }
      let fs1 := fs.writeFile manifestPath (.manifestDoc man)
      match open_output_file dataPath false fs1 with
      | .error e => (fs1, .error e)
      | .ok () =>
        let fs2 := fs1.writeFile dataPath (.bytes filt.to_signing_bytes)
        (fs2, .ok man)

/-- The report printed by `Verify::run` of `src/cmd/manifest.rs`: the recorded
hash with its verification flag, and each signer's signature with its
verification flag. -/
structure VerifyReport where
  serial : Nat
  hash_verified : Bool
  signatures : List ManifestSignatureVerify
  deriving DecidableEq

/-- Embeds `Verify::run` of `src/cmd/manifest.rs`: base64-decode the recorded
hash (a decode error aborts), rebuild the filter from the signing data,
compare the decoded hash with the filter's hash, and check every signer's
signature individually; the outcome of every check is reported as a value
and nothing is written. -/
def manifestVerifyRun (man : Manifest) (km : PublicKeyManifest) (dataBytes : List Nat)
    (fs : FileSys) : FileSys × Except CmdError VerifyReport :=
  match b64decode man.hash with
  | none => (fs, .error .decodeFailure)
  | some manifestHash =>
    match km.public_key with
    | .error _ => (fs, .error .malformedInput)
    | .ok _key =>
      match Filter.from_signing_bytes dataBytes with
      | none => (fs, .error .malformedInput)
      | some filt =>
        let filterHash := filt.hash
        let signingBytes := filt.to_signing_bytes
        let hashVerified := decide (manifestHash = filterHash)
        let sigReports := man.signatures.map fun s => s.verify signingBytes
        (fs, .ok { serial := man.serial, hash_verified := hashVerified,
                   signatures := sigReports })

/-- Embeds `Generate::run` of `src/cmd/filter.rs`: rebuild the filter from the
signing data, stamp in the aggregate signature from the manifest and the
manifest's serial, serialize and write the output file (never
existence-checked), and only then verify the written filter against the
composite key, failing the command if verification fails. -/
def filterGenerateRun (man : Manifest) (km : PublicKeyManifest) (dataBytes : List Nat)
    (outputPath : String) (fs : FileSys) : FileSys × Except CmdError Unit :=
  match km.public_key with
  | .error _ => (fs, .error .malformedInput)
  | .ok key =>
    match Filter.from_signing_bytes dataBytes with
    | none => (fs, .error .malformedInput)
    | some filt0 =>
      match man.sign km with
      | .error e => (fs, .error e)
      | .ok sig =>
        let filt := filt0.stamp_signature sig man.serial
        let filterBytes := filt.to_bytes
        match open_output_file outputPath false fs with
        | .error e => (fs, .error e)
        | .ok () =>
          let fs1 := fs.writeFile outputPath (.bytes filterBytes)
          let verified := (filt.verify key).isOk
          if !verified then (fs1, .error .verificationFailure)
          else (fs1, .ok ())

/-- Embeds `Verify::run` of `src/cmd/filter.rs`: load the filter, derive the
composite key, check the filter's aggregate signature; the check itself
yields an explicit boolean, which the command surfaces as a failure when
false; nothing is written either way. -/
def filterVerifyRun (filterBytes : List Nat) (km : PublicKeyManifest) (fs : FileSys) :
    FileSys × Except CmdError Bool :=
  match Filter.from_bytes filterBytes with
  | none => (fs, .error .malformedInput)
  | some filt =>
    match km.public_key with
    | .error _ => (fs, .error .malformedInput)
    | .ok key =>
      let verified := (filt.verify key).isOk
      if !verified then (fs, .error .verificationFailure)
      else (fs, .ok verified)

/-- Embeds `Contains::run` of `src/cmd/filter.rs`: load the filter and query
either edge membership (when a target is given) or key membership. -/
def filterContainsRun (filterBytes : List Nat) (key : Identity)
    (target : Option Identity) : Except CmdError Bool :=
  match Filter.from_bytes filterBytes with
  | none => .error .malformedInput
  | some filt =>
    match target with
    | some t => .ok (filt.contains_edge key t)
    | none => .ok (filt.contains key)

/-- Well-formedness mirroring the Rust field types of the artifact: a `u32`
serial, a byte signature with a `u32` length prefix, a `u64` seed, `u32`
segment fields, and a `u32`-counted array of 32-bit fingerprints (spec §3,
§6). -/
def Filter.wf (f : Filter) : Prop :=
  f.serial < 4294967296 ∧ f.signature.length < 4294967296 ∧
    (∀ b ∈ f.signature, b < 256) ∧ f.meta.seed < 18446744073709551616 ∧
    f.meta.segmentLength < 4294967296 ∧ f.meta.segmentCount < 4294967296 ∧
    f.filter.length < 4294967296 ∧ ∀ v ∈ f.filter, v < 4294967296

/-- The discipline satisfied by the peeling stack, in retirement order: each
retired item owns one of its candidate slots, and that slot is not a
candidate slot of any item retired later (spec §4.1: a retired item's slot
has "degree exactly one" among the remaining items). -/
inductive PeelOrder (m : SegmentMeta) : List (Nat × Nat) → Prop
  | nil : PeelOrder m []
  | cons (h s : Nat) (rest : List (Nat × Nat)) :
      s ∈ slotList m h →
      (∀ p ∈ rest, s ∉ slotList m p.1) →
      PeelOrder m rest →
      PeelOrder m ((h, s) :: rest)

/-- Example descriptor of the end-to-end scenario (spec §8): one denied key
and one denied edge. -/
def exDescriptor : Descriptor :=
  { denied_keys := [[1]], denied_edges := [([2], [3])] }

/-- The filter built from `exDescriptor` at serial 7 (concrete value). -/
def exFilter : Filter :=
  { serial := 7, signature := [],
    meta := { seed := 0, segmentLength := 2, segmentCount := 1 },
    filter := [2654435769, 739633177, 0, 0, 0, 0] }

/-- Descriptor whose single denied edge has a swapped-pair 64-bit hash
collision: `hash64 ([1,0] ++ [0,31]) = hash64 ([0,31] ++ [1,0])`. -/
def exCollideDescriptor : Descriptor :=
  { denied_keys := [], denied_edges := [([1, 0], [0, 31])] }

/-- The filter built from `exCollideDescriptor` at serial 0 (concrete
value). -/
def exCollideFilter : Filter :=
  { serial := 0, signature := [],
    meta := { seed := 0, segmentLength := 2, segmentCount := 1 },
    filter := [41285370, 0, 0, 0, 0, 0] }

/-- Descriptor with one generic denied edge, whose swapped pair does not
collide. -/
def exAsymDescriptor : Descriptor :=
  { denied_keys := [], denied_edges := [([1], [2])] }

/-- A small well-formed filter with nonempty signature (as after stamping). -/
def exWfFilter : Filter :=
  { serial := 7, signature := [9, 200],
    meta := { seed := 5, segmentLength := 2, segmentCount := 1 },
    filter := [1, 4294967295, 3, 0, 5, 6] }

/-- Example trusted-signer set. -/
def exKeyManifest : PublicKeyManifest := { public_keys := [[9], [10]] }

/-- A manifest whose recorded signatures are not valid for anything (empty
list), driving `Filter::verify` to fail after `filter generate` has already
written its output. -/
def exBadManifest : Manifest := { serial := 1, hash := [], signatures := [] }

/-- An empty file system. -/
def exEmptyFs : FileSys := { files := [] }

/-- Reading a 32-bit value undoes writing one. -/
theorem takeU32_u32le (n : Nat) (rest : List Nat) (hn : n < 4294967296) :
    takeU32 (u32le n ++ rest) = some (n, rest) := by
  simp only [u32le, List.cons_append, List.nil_append, takeU32]
  have hv : n % 256 + 256 * (n / 256 % 256) + 65536 * (n / 65536 % 256) +
      16777216 * (n / 16777216 % 256) = n := by omega
  rw [hv]

/-- Reading a 64-bit value undoes writing one. -/
theorem takeU64_u64le (n : Nat) (rest : List Nat) (hn : n < 18446744073709551616) :
    takeU64 (u64le n ++ rest) = some (n, rest) := by
  have hlo : n % 4294967296 < 4294967296 := by omega
  have hhi : n / 4294967296 < 4294967296 := by omega
  simp only [u64le, takeU64, List.append_assoc, bind, takeU32_u32le _ _ hlo,
    takeU32_u32le _ _ hhi, Option.some_bind]
  have hv : n % 4294967296 + 4294967296 * (n / 4294967296) = n := by omega
  rw [hv]

/-- Reading raw bytes by their own length undoes writing them. -/
theorem takeBytes_append (l rest : List Nat) :
    takeBytes l.length (l ++ rest) = some (l, rest) := by
  simp [takeBytes, List.take_left, List.drop_left]

/-- Reading a counted list of 32-bit values undoes writing one. -/
theorem takeU32List_append (fps rest : List Nat) (h : ∀ v ∈ fps, v < 4294967296) :
    takeU32List fps.length ((fps.map u32le).flatten ++ rest) = some (fps, rest) := by
  induction fps with
  | nil => simp [takeU32List]
  | cons v vs ih =>
    have hv : v < 4294967296 := h v (by simp)
    have hvs : ∀ x ∈ vs, x < 4294967296 := fun x hx => h x (by simp [hx])
    simp only [List.map_cons, List.flatten_cons, List.length_cons, takeU32List, bind,
      List.append_assoc, takeU32_u32le _ _ hv, Option.some_bind, ih hvs]

/-- Round-trip of the binary layout on any well-formed filter. -/
theorem from_bytes_to_bytes (f : Filter) (hf : f.wf) :
    Filter.from_bytes f.to_bytes = some f := by
  obtain ⟨h1, h2, _h3, h4, h5, h6, h7, h8⟩ := hf
  have hsig := takeBytes_append f.signature
  have hfps := takeU32List_append f.filter [] h8
  rw [List.append_nil] at hfps
  simp only [Filter.to_bytes, Filter.from_bytes, SegmentMeta.toBytes, List.append_assoc,
    bind, takeU32_u32le _ _ h1, takeU32_u32le _ _ h2, Option.some_bind, hsig,
    takeU64_u64le _ _ h4, takeU32_u32le _ _ h5, takeU32_u32le _ _ h6,
    takeU32_u32le _ _ h7, List.append_nil, hfps, if_pos rfl, if_true]

/-- Reading zero raw bytes consumes nothing. -/
theorem takeBytes_zero (bs : List Nat) : takeBytes 0 bs = some ([], bs) := by
  simp [takeBytes]

/-- Round-trip of the signing-data layout: parsing the signing bytes restores
the filter with an empty signature. -/
theorem from_signing_to_signing (f : Filter) (h1 : f.serial < 4294967296)
    (h4 : f.meta.seed < 18446744073709551616) (h5 : f.meta.segmentLength < 4294967296)
    (h6 : f.meta.segmentCount < 4294967296) (h7 : f.filter.length < 4294967296)
    (h8 : ∀ v ∈ f.filter, v < 4294967296) :
    Filter.from_signing_bytes f.to_signing_bytes = some { f with signature := [] } := by
  have hfps := takeU32List_append f.filter [] h8
  rw [List.append_nil] at hfps
  simp only [Filter.from_signing_bytes, Filter.to_signing_bytes, Filter.from_bytes,
    SegmentMeta.toBytes, List.append_assoc, bind, takeU32_u32le _ _ h1,
    takeU32_u32le _ _ (show (0 : Nat) < 4294967296 by omega), Option.some_bind,
    takeBytes_zero, takeU64_u64le _ _ h4, takeU32_u32le _ _ h5, takeU32_u32le _ _ h6,
    takeU32_u32le _ _ h7, hfps, if_pos rfl, if_true]

/-- Stamping replaces exactly the signature and serial fields. -/
theorem stamp_signature_fields (f : Filter) (sig : List Nat) (serial : Nat) :
    (f.stamp_signature sig serial).serial = serial ∧
      (f.stamp_signature sig serial).signature = sig ∧
      (f.stamp_signature sig serial).meta = f.meta ∧
      (f.stamp_signature sig serial).filter = f.filter :=
  ⟨rfl, rfl, rfl, rfl⟩

/-- C4: deserializing the serialization of any well-formed filter — including
one with signature and serial stamped in — yields a structurally equal
filter, covering signature, serial, segment metadata and the fingerprint
array. -/
theorem C4_round_trip (f : Filter) (sig : List Nat) (serial : Nat) (hf : f.wf)
    (hsl : sig.length < 4294967296) (hsb : ∀ b ∈ sig, b < 256)
    (hser : serial < 4294967296) :
    Filter.from_bytes f.to_bytes = some f ∧
      (f.stamp_signature sig serial).wf ∧
      Filter.from_bytes (f.stamp_signature sig serial).to_bytes =
        some (f.stamp_signature sig serial) := by
  obtain ⟨g1, g2, g3, g4, g5, g6, g7, g8⟩ := hf
  have hwf : (f.stamp_signature sig serial).wf :=
    ⟨hser, hsl, hsb, g4, g5, g6, g7, g8⟩
  exact ⟨from_bytes_to_bytes f ⟨g1, g2, g3, g4, g5, g6, g7, g8⟩, hwf,
    from_bytes_to_bytes _ hwf⟩

/-- Witness for C4 at a concrete well-formed filter and stamp. -/
theorem C4_witness :
    Filter.from_bytes exWfFilter.to_bytes = some exWfFilter ∧
      (exWfFilter.stamp_signature [1, 2, 3] 3).wf ∧
      Filter.from_bytes (exWfFilter.stamp_signature [1, 2, 3] 3).to_bytes =
        some (exWfFilter.stamp_signature [1, 2, 3] 3) :=
  C4_round_trip exWfFilter [1, 2, 3] 3
    ⟨by decide, by decide, by decide, by decide, by decide, by decide, by decide,
      by decide⟩
    (by decide) (by decide) (by decide)

/-- C2 counterexample: stamping a signature together with a *different* serial
changes the signing bytes (the signing bytes retain the serial, spec §6), so
the claimed invariance does not hold for every serial. -/
theorem C2_counterexample :
    ((({ serial := 0, signature := [],
         meta := { seed := 0, segmentLength := 1, segmentCount := 1 },
         filter := [0, 0, 0] } : Filter).stamp_signature [7] 1).to_signing_bytes ≠
      ({ serial := 0, signature := [],
         meta := { seed := 0, segmentLength := 1, segmentCount := 1 },
         filter := [0, 0, 0] } : Filter).to_signing_bytes) := by decide

/-- C2 (amended): stamping a signature into a filter leaves the signing bytes
unchanged whenever the stamped serial equals the filter's serial — the
signature never appears in the signed payload; stamping a different serial
changes only the serial field of the signing bytes. -/
theorem C2_signing_bytes_invariant (f : Filter) (sig : List Nat) (serial : Nat)
    (hser : serial = f.serial) :
    (f.stamp_signature sig serial).to_signing_bytes = f.to_signing_bytes := by
  subst hser
  rfl

/-- Witness for C2 (amended) at a concrete filter and signature. -/
theorem C2_witness :
    (exWfFilter.stamp_signature [3, 4] 7).to_signing_bytes =
      exWfFilter.to_signing_bytes :=
  C2_signing_bytes_invariant exWfFilter [3, 4] 7 (by decide)

/-- C7: filter construction is deterministic — two builds from equal
(serial, descriptor) pairs give filters with identical content hashes and
identical signing bytes (the model is sequential and pure, so internal
parallelism cannot occur). -/
theorem C7_deterministic (s1 s2 : Nat) (d1 d2 : Descriptor) (hs : s1 = s2)
    (hd : d1 = d2) :
    (Filter.from_descriptor s1 d1).map Filter.hash =
        (Filter.from_descriptor s2 d2).map Filter.hash ∧
      (Filter.from_descriptor s1 d1).map Filter.to_signing_bytes =
        (Filter.from_descriptor s2 d2).map Filter.to_signing_bytes := by
  subst hs
  subst hd
  exact ⟨rfl, rfl⟩

/-- Witness for C7 at a concrete serial and descriptor. -/
theorem C7_witness :
    (Filter.from_descriptor 7 exDescriptor).map Filter.hash =
        (Filter.from_descriptor 7 exDescriptor).map Filter.hash ∧
      (Filter.from_descriptor 7 exDescriptor).map Filter.to_signing_bytes =
        (Filter.from_descriptor 7 exDescriptor).map Filter.to_signing_bytes :=
  C7_deterministic 7 7 exDescriptor exDescriptor rfl rfl

/-- A successful build names one of the bounded attempts. -/
theorem buildItems_attempt (serial : Nat) (items : List Nat) (f : Filter)
    (h : buildItems serial items = some f) :
    ∃ seed, seed < attemptLimit ∧ buildAttempt serial seed items = some f := by
  obtain ⟨seed, hmem, hatt⟩ := List.exists_of_findSome?_eq_some h
  exact ⟨seed, List.mem_range.mp hmem, hatt⟩

/-- A successful attempt is the record built from a successful peel. -/
theorem buildAttempt_shape (serial seed : Nat) (items : List Nat) (f : Filter)
    (h : buildAttempt serial seed items = some f) :
    ∃ stack, peel (chooseMeta seed items.length) items = some stack ∧
      f = { serial := serial, signature := [],
            meta := chooseMeta seed items.length,
            filter := fill (chooseMeta seed items.length) stack } := by
  unfold buildAttempt at h
  obtain ⟨stack, hst, hf⟩ := Option.map_eq_some'.mp h
  exact ⟨stack, hst, hf.symm⟩

/-- A built filter records the serial it was built with, and starts with an
empty signature. -/
theorem from_descriptor_fields (serial : Nat) (d : Descriptor) (f : Filter)
    (h : Filter.from_descriptor serial d = some f) :
    f.serial = serial ∧ f.signature = [] := by
  obtain ⟨seed, _, hatt⟩ := buildItems_attempt serial (itemHashes d) f h
  obtain ⟨stack, _, hf⟩ := buildAttempt_shape serial seed (itemHashes d) f hatt
  subst hf
  exact ⟨rfl, rfl⟩

/-- C9: when the filter builds and the manifest file check passes, manifest
generation persists the manifest and then the signing data, and the manifest
carries exactly one empty signature entry per trusted signer, in signer-list
order, together with the serial used to build the filter. -/
theorem C9_manifest_generation (d : Descriptor) (km : PublicKeyManifest)
    (serial : Nat) (force : Bool) (mp dp : String) (fs : FileSys) (f : Filter)
    (hf : Filter.from_descriptor serial d = some f)
    (hopen : (!force && fs.hasFile mp) = false) :
    manifestGenerateRun d km serial force mp dp fs =
      ((fs.writeFile mp (.manifestDoc
          { serial := serial, hash := b64encode f.hash,
            signatures := km.public_keys.map ManifestSignature.ofKey })).writeFile dp
          (.bytes f.to_signing_bytes),
        .ok { serial := serial, hash := b64encode f.hash,
              signatures := km.public_keys.map ManifestSignature.ofKey }) ∧
      f.serial = serial := by
  refine ⟨?_, (from_descriptor_fields serial d f hf).1⟩
  unfold manifestGenerateRun open_output_file
  rw [hf]
  simp [hopen]

/-- Witness for C9 at concrete inputs. -/
theorem C9_witness :
    manifestGenerateRun exDescriptor exKeyManifest 7 true "manifest.json" "data.bin"
        exEmptyFs =
      ((exEmptyFs.writeFile "manifest.json" (.manifestDoc
          { serial := 7, hash := b64encode exFilter.hash,
            signatures := exKeyManifest.public_keys.map ManifestSignature.ofKey })).writeFile
          "data.bin" (.bytes exFilter.to_signing_bytes),
        .ok { serial := 7, hash := b64encode exFilter.hash,
              signatures := exKeyManifest.public_keys.map ManifestSignature.ofKey }) ∧
      exFilter.serial = 7 :=
  C9_manifest_generation exDescriptor exKeyManifest 7 true "manifest.json" "data.bin"
    exEmptyFs exFilter (by rfl) (by rfl)

/-- C10: the `force` flag governs only the manifest output file: with the
filter built, manifest generation fails with a file-exists error exactly
when `force` is unset and the manifest file exists; with `force` set it
never fails that way; and neither the signing-data file nor the filter
output file is ever existence-checked, so filter generation never fails
with a file-exists error. -/
theorem C10_force_flag_scope (d : Descriptor) (km : PublicKeyManifest) (serial : Nat)
    (mp dp : String) (fs : FileSys) (f : Filter) (man : Manifest)
    (dataBytes : List Nat) (out : String)
    (hf : Filter.from_descriptor serial d = some f) :
    ((manifestGenerateRun d km serial false mp dp fs).2 = .error .fileExists ↔
        fs.hasFile mp = true) ∧
      (manifestGenerateRun d km serial true mp dp fs).2 ≠ .error .fileExists ∧
      (filterGenerateRun man km dataBytes out fs).2 ≠ .error .fileExists := by
  refine ⟨?_, ?_, ?_⟩
  · unfold manifestGenerateRun open_output_file
    rw [hf]
    cases hex : fs.hasFile mp <;> simp [hex]
  · unfold manifestGenerateRun open_output_file
    rw [hf]
    simp
  · unfold filterGenerateRun open_output_file
    cases hparse : Filter.from_signing_bytes dataBytes <;>
      simp [PublicKeyManifest.public_key, Manifest.sign]
    split <;> simp

/-- Witness for C10 at concrete inputs. -/
theorem C10_witness :
    ((manifestGenerateRun exDescriptor exKeyManifest 7 false "manifest.json" "data.bin"
          exEmptyFs).2 = .error .fileExists ↔ exEmptyFs.hasFile "manifest.json" = true) ∧
      (manifestGenerateRun exDescriptor exKeyManifest 7 true "manifest.json" "data.bin"
          exEmptyFs).2 ≠ .error .fileExists ∧
      (filterGenerateRun exBadManifest exKeyManifest exWfFilter.to_signing_bytes
          "filter.bin" exEmptyFs).2 ≠ .error .fileExists :=
  C10_force_flag_scope exDescriptor exKeyManifest 7 "manifest.json" "data.bin" exEmptyFs
    exFilter exBadManifest exWfFilter.to_signing_bytes "filter.bin" (by rfl)

/-- C3 counterexample: `filter generate` writes the filter file and only then
verifies it, so when verification fails the command errors *after* the
invalid filter has been persisted — partial state survives a failed
operation. -/
theorem C3_counterexample :
    (filterGenerateRun exBadManifest exKeyManifest exWfFilter.to_signing_bytes
        "filter.bin" exEmptyFs).2 = .error .verificationFailure ∧
      (filterGenerateRun exBadManifest exKeyManifest exWfFilter.to_signing_bytes
          "filter.bin" exEmptyFs).1.hasFile "filter.bin" = true :=
  ⟨rfl, rfl⟩

/-- C3 (amended): filter generation persists the stamped filter bytes before
verifying them, so whenever the signing data parses, the output file is
written whether the final verification succeeds or fails; a verification
failure is reported only after the write. -/
theorem C3_write_precedes_verify (man : Manifest) (km : PublicKeyManifest)
    (dataBytes : List Nat) (out : String) (fs : FileSys) (filt : Filter)
    (hparse : Filter.from_signing_bytes dataBytes = some filt) :
    (filterGenerateRun man km dataBytes out fs).1 =
        fs.writeFile out (.bytes ((filt.stamp_signature
          ((man.signatures.map fun s => s.signature).flatten) man.serial).to_bytes)) ∧
      ((filterGenerateRun man km dataBytes out fs).2 = .error .verificationFailure ∨
        (filterGenerateRun man km dataBytes out fs).2 = .ok ()) := by
  unfold filterGenerateRun open_output_file
  rw [show km.public_key = Except.ok (hashBytes km.public_keys.flatten) from rfl, hparse,
    show man.sign km = Except.ok ((man.signatures.map fun s => s.signature).flatten) from rfl]
  simp only [Bool.false_and, Bool.false_eq_true, if_false]
  constructor
  · split <;> rfl
  · split
    · exact Or.inl rfl
    · exact Or.inr rfl

/-- Witness for C3 (amended) at concrete inputs. -/
theorem C3_witness :
    (filterGenerateRun exBadManifest exKeyManifest exWfFilter.to_signing_bytes
        "filter.bin" exEmptyFs).1 =
        exEmptyFs.writeFile "filter.bin" (.bytes ((({ exWfFilter with signature := [] }
            : Filter).stamp_signature
          ((exBadManifest.signatures.map fun s => s.signature).flatten)
          exBadManifest.serial).to_bytes)) ∧
      ((filterGenerateRun exBadManifest exKeyManifest exWfFilter.to_signing_bytes
          "filter.bin" exEmptyFs).2 = .error .verificationFailure ∨
        (filterGenerateRun exBadManifest exKeyManifest exWfFilter.to_signing_bytes
            "filter.bin" exEmptyFs).2 = .ok ()) :=
  C3_write_precedes_verify exBadManifest exKeyManifest exWfFilter.to_signing_bytes
    "filter.bin" exEmptyFs { exWfFilter with signature := [] } (by rfl)

/-- C8: cryptographic checks report failure as explicit values and never as a
fatal error: `Filter::verify` always returns either success or an explicit
verification-failure value, a per-signer check always returns a report
carrying the checked signature and a boolean, and the verify commands
return their file system unchanged, reporting every per-signer outcome
(one report per recorded signature) instead of aborting. -/
theorem C8_explicit_failures (f : Filter) (key : Identity) (s : ManifestSignature)
    (bs : List Nat) (man : Manifest) (km : PublicKeyManifest) (data : List Nat)
    (fs : FileSys) :
    (f.verify key = .ok () ∨ f.verify key = .error .verificationFailure) ∧
      ((s.verify bs).signature = s ∧
        ((s.verify bs).verified = true ∨ (s.verify bs).verified = false)) ∧
      (manifestVerifyRun man km data fs).1 = fs ∧
      (filterVerifyRun data km fs).1 = fs ∧
      ∀ mh filt, b64decode man.hash = some mh →
        Filter.from_signing_bytes data = some filt →
        (manifestVerifyRun man km data fs).2 =
            .ok { serial := man.serial, hash_verified := decide (mh = filt.hash),
                  signatures := man.signatures.map fun x => x.verify filt.to_signing_bytes } ∧
          (man.signatures.map fun x => x.verify filt.to_signing_bytes).length =
            man.signatures.length := by
  refine ⟨?_, ⟨rfl, ?_⟩, ?_, ?_, ?_⟩
  · unfold Filter.verify
    split <;> simp
  · cases h : (s.verify bs).verified <;> simp
  · unfold manifestVerifyRun
    repeat' split
    all_goals rfl
  · unfold filterVerifyRun
    repeat' split
    all_goals try rfl
    all_goals dsimp only
    all_goals split <;> rfl
  · intro mh filt hdec hparse
    unfold manifestVerifyRun
    rw [show km.public_key = Except.ok (hashBytes km.public_keys.flatten) from rfl, hdec,
      hparse]
    exact ⟨rfl, by simp⟩

/-- Cancellation of a repeated xor operand. -/
theorem xor_xor_self (a b : Nat) : a ^^^ b ^^^ b = a := by
  rw [Nat.xor_assoc, Nat.xor_self, Nat.xor_zero]

/-- The two right operands of a double xor commute. -/
theorem xor_swap_right (a b c : Nat) : a ^^^ b ^^^ c = a ^^^ c ^^^ b := by
  rw [Nat.xor_assoc, Nat.xor_comm b c, ← Nat.xor_assoc]

/-- Cancellation of an operand repeated around a xor. -/
theorem xor_comm_self (a b : Nat) : a ^^^ (b ^^^ a) = b := by
  rw [Nat.xor_comm b a, ← Nat.xor_assoc, Nat.xor_self, Nat.zero_xor]

/-- The three candidate slots are strictly increasing. -/
theorem slots_strict (m : SegmentMeta) (hL : 0 < m.segmentLength) (h : Nat) :
    (m.slots h).1 < (m.slots h).2.1 ∧ (m.slots h).2.1 < (m.slots h).2.2 := by
  unfold SegmentMeta.slots
  dsimp only
  constructor
  · have ho : mixSeed m.seed h / 2 ^ 8 % m.segmentLength < m.segmentLength :=
      Nat.mod_lt _ hL
    calc mixSeed m.seed h % m.segmentCount * m.segmentLength +
          mixSeed m.seed h / 2 ^ 8 % m.segmentLength <
        mixSeed m.seed h % m.segmentCount * m.segmentLength + m.segmentLength :=
          Nat.add_lt_add_left ho _
      _ = (mixSeed m.seed h % m.segmentCount + 1) * m.segmentLength := by ring
      _ ≤ (mixSeed m.seed h % m.segmentCount + 1) * m.segmentLength +
            mixSeed m.seed h / 2 ^ 16 % m.segmentLength := Nat.le_add_right _ _
  · have ho : mixSeed m.seed h / 2 ^ 16 % m.segmentLength < m.segmentLength :=
      Nat.mod_lt _ hL
    calc (mixSeed m.seed h % m.segmentCount + 1) * m.segmentLength +
          mixSeed m.seed h / 2 ^ 16 % m.segmentLength <
        (mixSeed m.seed h % m.segmentCount + 1) * m.segmentLength + m.segmentLength :=
          Nat.add_lt_add_left ho _
      _ = (mixSeed m.seed h % m.segmentCount + 2) * m.segmentLength := by ring
      _ ≤ (mixSeed m.seed h % m.segmentCount + 2) * m.segmentLength +
            mixSeed m.seed h / 2 ^ 24 % m.segmentLength := Nat.le_add_right _ _

/-- The third candidate slot stays inside the array. -/
theorem slot2_lt (m : SegmentMeta) (hL : 0 < m.segmentLength) (hC : 0 < m.segmentCount)
    (h : Nat) : (m.slots h).2.2 < m.arrayLength := by
  unfold SegmentMeta.slots SegmentMeta.arrayLength
  dsimp only
  have hseg : mixSeed m.seed h % m.segmentCount < m.segmentCount := Nat.mod_lt _ hC
  have ho : mixSeed m.seed h / 2 ^ 24 % m.segmentLength < m.segmentLength :=
    Nat.mod_lt _ hL
  have h1 : (mixSeed m.seed h % m.segmentCount + 2) * m.segmentLength +
      mixSeed m.seed h / 2 ^ 24 % m.segmentLength <
      (mixSeed m.seed h % m.segmentCount + 3) * m.segmentLength := by
    calc (mixSeed m.seed h % m.segmentCount + 2) * m.segmentLength +
          mixSeed m.seed h / 2 ^ 24 % m.segmentLength <
        (mixSeed m.seed h % m.segmentCount + 2) * m.segmentLength + m.segmentLength :=
          Nat.add_lt_add_left ho _
      _ = (mixSeed m.seed h % m.segmentCount + 3) * m.segmentLength := by ring
  have h2 : (mixSeed m.seed h % m.segmentCount + 3) * m.segmentLength ≤
      (m.segmentCount + 2) * m.segmentLength :=
    Nat.mul_le_mul_right _ (by omega)
  exact lt_of_lt_of_le h1 h2

/-- Every candidate slot stays inside the array. -/
theorem slotList_lt (m : SegmentMeta) (hL : 0 < m.segmentLength)
    (hC : 0 < m.segmentCount) (h : Nat) : ∀ x ∈ slotList m h, x < m.arrayLength := by
  intro x hx
  have hstrict := slots_strict m hL h
  have h2 := slot2_lt m hL hC h
  simp only [slotList, List.mem_cons, List.not_mem_nil, or_false] at hx
  rcases hx with rfl | rfl | rfl
  · omega
  · omega
  · exact h2

/-- A fill step preserves the array length. -/
theorem fillStep_length (m : SegmentMeta) (p : Nat × Nat) (arr : List Nat) :
    (fillStep m p arr).length = arr.length := by
  simp [fillStep]

/-- The filled array has exactly `arrayLength` slots. -/
theorem fill_length (m : SegmentMeta) (stack : List (Nat × Nat)) :
    (fill m stack).length = m.arrayLength := by
  induction stack with
  | nil => simp [fill]
  | cons p rest ih =>
    show (fillStep m p (fill m rest)).length = m.arrayLength
    rw [fillStep_length]
    exact ih

/-- Reading the slot just written. -/
theorem getD_set_self (l : List Nat) (i a : Nat) (h : i < l.length) :
    (l.set i a).getD i 0 = a := by
  simp [List.getD_eq_getElem?_getD, List.getElem?_set_self, h]

/-- Reading a slot other than the one written. -/
theorem getD_set_ne (l : List Nat) (i j a : Nat) (h : i ≠ j) :
    (l.set i a).getD j 0 = l.getD j 0 := by
  simp [List.getD_eq_getElem?_getD, List.getElem?_set_ne h]

/-- Xor shape of the fill assignment when the item owns its first slot. -/
theorem xor_case1 (fp x y : Nat) : (fp ^^^ 0 ^^^ x ^^^ y) ^^^ x ^^^ y = fp := by
  rw [Nat.xor_zero, xor_swap_right (fp ^^^ x) y x, xor_xor_self, xor_xor_self]

/-- Xor shape of the fill assignment when the item owns its middle slot. -/
theorem xor_case2 (fp x y : Nat) : x ^^^ (fp ^^^ x ^^^ 0 ^^^ y) ^^^ y = fp := by
  rw [Nat.xor_zero, Nat.xor_comm x ((fp ^^^ x) ^^^ y), xor_swap_right (fp ^^^ x) y x,
    xor_xor_self, xor_xor_self]

/-- Xor shape of the fill assignment when the item owns its last slot. -/
theorem xor_case3 (fp x y : Nat) : x ^^^ y ^^^ (fp ^^^ x ^^^ y ^^^ 0) = fp := by
  rw [Nat.xor_zero, Nat.xor_assoc fp x y, xor_comm_self]

/-- After its own fill step, an item's membership test succeeds: the xor of
its three slots equals its fingerprint. -/
theorem fillStep_self (m : SegmentMeta) (arr : List Nat) (hL : 0 < m.segmentLength)
    (hC : 0 < m.segmentCount) (h s : Nat) (hs : s ∈ slotList m h)
    (hlen : arr.length = m.arrayLength) :
    containsHash m (fillStep m (h, s) arr) h = true := by
  have hd := slots_strict m hL h
  have hslen : s < arr.length := by rw [hlen]; exact slotList_lt m hL hC h s hs
  have hslen2 : s < (arr.set s 0).length := by simpa using hslen
  simp only [slotList, List.mem_cons, List.not_mem_nil, or_false] at hs
  unfold containsHash fillStep
  dsimp only
  rcases hs with rfl | rfl | rfl
  · have e1 : ∀ v, ((arr.set (m.slots h).1 0).set (m.slots h).1 v).getD (m.slots h).1 0
        = v := fun v => getD_set_self _ _ _ hslen2
    have e2 : ∀ v, ((arr.set (m.slots h).1 0).set (m.slots h).1 v).getD (m.slots h).2.1 0
        = (arr.set (m.slots h).1 0).getD (m.slots h).2.1 0 :=
      fun v => getD_set_ne _ _ _ _ (Nat.ne_of_lt hd.1)
    have e3 : ∀ v, ((arr.set (m.slots h).1 0).set (m.slots h).1 v).getD (m.slots h).2.2 0
        = (arr.set (m.slots h).1 0).getD (m.slots h).2.2 0 :=
      fun v => getD_set_ne _ _ _ _ (Nat.ne_of_lt (hd.1.trans hd.2))
    have e4 : (arr.set (m.slots h).1 0).getD (m.slots h).1 0 = 0 :=
      getD_set_self _ _ _ hslen
    rw [e1, e2, e3, e4, xor_case1]
    simp
  · have e1 : ∀ v, ((arr.set (m.slots h).2.1 0).set (m.slots h).2.1 v).getD
        (m.slots h).2.1 0 = v := fun v => getD_set_self _ _ _ hslen2
    have e2 : ∀ v, ((arr.set (m.slots h).2.1 0).set (m.slots h).2.1 v).getD
        (m.slots h).1 0 = (arr.set (m.slots h).2.1 0).getD (m.slots h).1 0 :=
      fun v => getD_set_ne _ _ _ _ (Ne.symm (Nat.ne_of_lt hd.1))
    have e3 : ∀ v, ((arr.set (m.slots h).2.1 0).set (m.slots h).2.1 v).getD
        (m.slots h).2.2 0 = (arr.set (m.slots h).2.1 0).getD (m.slots h).2.2 0 :=
      fun v => getD_set_ne _ _ _ _ (Nat.ne_of_lt hd.2)
    have e4 : (arr.set (m.slots h).2.1 0).getD (m.slots h).2.1 0 = 0 :=
      getD_set_self _ _ _ hslen
    rw [e1, e2, e3, e4, xor_case2]
    simp
  · have e1 : ∀ v, ((arr.set (m.slots h).2.2 0).set (m.slots h).2.2 v).getD
        (m.slots h).2.2 0 = v := fun v => getD_set_self _ _ _ hslen2
    have e2 : ∀ v, ((arr.set (m.slots h).2.2 0).set (m.slots h).2.2 v).getD
        (m.slots h).1 0 = (arr.set (m.slots h).2.2 0).getD (m.slots h).1 0 :=
      fun v => getD_set_ne _ _ _ _ (Ne.symm (Nat.ne_of_lt (hd.1.trans hd.2)))
    have e3 : ∀ v, ((arr.set (m.slots h).2.2 0).set (m.slots h).2.2 v).getD
        (m.slots h).2.1 0 = (arr.set (m.slots h).2.2 0).getD (m.slots h).2.1 0 :=
      fun v => getD_set_ne _ _ _ _ (Ne.symm (Nat.ne_of_lt hd.2))
    have e4 : (arr.set (m.slots h).2.2 0).getD (m.slots h).2.2 0 = 0 :=
      getD_set_self _ _ _ hslen
    rw [e1, e2, e3, e4, xor_case3]
    simp

/-- A fill step into a slot that another item does not use leaves that item's
membership test unchanged. -/
theorem fillStep_other (m : SegmentMeta) (arr : List Nat) (h s q : Nat)
    (hq : s ∉ slotList m q) :
    containsHash m (fillStep m (h, s) arr) q = containsHash m arr q := by
  have h1 : s ≠ (m.slots q).1 := fun e => hq (by simp [slotList, e])
  have h2 : s ≠ (m.slots q).2.1 := fun e => hq (by simp [slotList, e])
  have h3 : s ≠ (m.slots q).2.2 := fun e => hq (by simp [slotList, e])
  unfold containsHash fillStep
  dsimp only
  have e1 : ∀ (l : List Nat) (v : Nat),
      ((l.set s 0).set s v).getD (m.slots q).1 0 = l.getD (m.slots q).1 0 := fun l v => by
    rw [getD_set_ne _ _ _ _ h1, getD_set_ne _ _ _ _ h1]
  have e2 : ∀ (l : List Nat) (v : Nat),
      ((l.set s 0).set s v).getD (m.slots q).2.1 0 = l.getD (m.slots q).2.1 0 :=
    fun l v => by rw [getD_set_ne _ _ _ _ h2, getD_set_ne _ _ _ _ h2]
  have e3 : ∀ (l : List Nat) (v : Nat),
      ((l.set s 0).set s v).getD (m.slots q).2.2 0 = l.getD (m.slots q).2.2 0 :=
    fun l v => by rw [getD_set_ne _ _ _ _ h3, getD_set_ne _ _ _ _ h3]
  rw [e1, e2, e3]

/-- Every item of a peel-ordered stack passes the membership test on the
filled array. -/
theorem fill_peelOrder_contains (m : SegmentMeta) (hL : 0 < m.segmentLength)
    (hC : 0 < m.segmentCount) (stack : List (Nat × Nat)) (hpo : PeelOrder m stack) :
    ∀ p ∈ stack, containsHash m (fill m stack) p.1 = true := by
  induction hpo with
  | nil => intro p hp; simp at hp
  | cons h s rest hs hrest _hpo ih =>
    intro p hp
    have hfill : fill m ((h, s) :: rest) = fillStep m (h, s) (fill m rest) := rfl
    rcases List.mem_cons.mp hp with rfl | hmem
    · rw [hfill]
      exact fillStep_self m (fill m rest) hL hC h s hs (fill_length m rest)
    · rw [hfill, fillStep_other m (fill m rest) h s p.1 (hrest p hmem)]
      exact ih p hmem

/-- What a successful peeling selection guarantees: the selected item remains,
the selected slot is one of its candidates, and that slot has degree one. -/
theorem findPeelable_spec (m : SegmentMeta) (remaining : List Nat) (h s : Nat)
    (hf : findPeelable m remaining = some (h, s)) :
    h ∈ remaining ∧ s ∈ slotList m h ∧ degree m remaining s = 1 := by
  obtain ⟨a, hamem, ha⟩ := List.exists_of_findSome?_eq_some hf
  obtain ⟨s', hsmem, hs'⟩ := List.exists_of_findSome?_eq_some ha
  by_cases hdeg : degree m remaining s' = 1
  · rw [if_pos hdeg] at hs'
    obtain ⟨rfl, rfl⟩ := Prod.mk.injEq .. ▸ Option.some.inj hs'
    exact ⟨hamem, hsmem, hdeg⟩
  · rw [if_neg hdeg] at hs'
    exact absurd hs' (by simp)

/-- When a slot has degree one witnessed by a remaining item, no other
remaining item uses that slot. -/
theorem degree_one_not_mem (m : SegmentMeta) (remaining : List Nat) (h s : Nat)
    (hmem : h ∈ remaining) (hslot : s ∈ slotList m h)
    (hdeg : degree m remaining s = 1) :
    ∀ y ∈ remaining.erase h, s ∉ slotList m y := by
  have hperm := List.perm_cons_erase hmem
  have hcount : degree m remaining s =
      degree m (remaining.erase h) s + 1 := by
    unfold degree
    rw [hperm.countP_eq]
    simp [List.countP_cons, hslot]
  have hzero : degree m (remaining.erase h) s = 0 := by omega
  intro y hy hsy
  have := List.countP_eq_zero.mp hzero y hy
  simp [hsy] at this

/-- A successful peel returns a permutation of the items in a peel-ordered
stack. -/
theorem peelAux_spec (m : SegmentMeta) (fuel : Nat) :
    ∀ (remaining : List Nat) (stack : List (Nat × Nat)),
      peelAux m fuel remaining = some stack →
      (stack.map Prod.fst).Perm remaining ∧ PeelOrder m stack := by
  induction fuel with
  | zero =>
    intro remaining stack hp
    cases remaining with
    | nil =>
      cases hp
      exact ⟨List.Perm.nil, PeelOrder.nil⟩
    | cons x xs => exact absurd hp (by simp [peelAux])
  | succ fuel ih =>
    intro remaining stack hp
    cases remaining with
    | nil =>
      cases hp
      exact ⟨List.Perm.nil, PeelOrder.nil⟩
    | cons x xs =>
      unfold peelAux at hp
      cases hfp : findPeelable m (x :: xs) with
      | none => rw [hfp] at hp; exact absurd hp (by simp)
      | some pr =>
        obtain ⟨h, s⟩ := pr
        rw [hfp] at hp
        obtain ⟨rest, hrest, hstack⟩ := Option.map_eq_some'.mp hp
        obtain ⟨hmem, hslot, hdeg⟩ := findPeelable_spec m (x :: xs) h s hfp
        obtain ⟨hperm, hpo⟩ := ih ((x :: xs).erase h) rest hrest
        subst hstack
        constructor
        · simpa using (hperm.cons h).trans (List.perm_cons_erase hmem).symm
        · refine PeelOrder.cons h s rest hslot ?_ hpo
          intro p hpmem
          have hp1 : p.1 ∈ (x :: xs).erase h :=
            hperm.mem_iff.mp (List.mem_map_of_mem Prod.fst hpmem)
          exact degree_one_not_mem m (x :: xs) h s hmem hslot hdeg p.1 hp1

/-- The segment metadata chosen at construction has positive dimensions. -/
theorem chooseMeta_pos (seed n : Nat) :
    0 < (chooseMeta seed n).segmentLength ∧ 0 < (chooseMeta seed n).segmentCount := by
  constructor <;> exact Nat.succ_pos _

/-- A successfully built filter answers true on every hashed item it was built
from. -/
theorem buildItems_contains (serial : Nat) (items : List Nat) (f : Filter)
    (hb : buildItems serial items = some f) :
    ∀ h ∈ items, containsHash f.meta f.filter h = true := by
  obtain ⟨seed, _, hatt⟩ := buildItems_attempt serial items f hb
  obtain ⟨stack, hpeel, hf⟩ := buildAttempt_shape serial seed items f hatt
  obtain ⟨hperm, hpo⟩ := peelAux_spec (chooseMeta seed items.length) items.length
    items stack hpeel
  obtain ⟨hL, hC⟩ := chooseMeta_pos seed items.length
  subst hf
  intro h hmem
  obtain ⟨p, hp, hph⟩ := List.mem_map.mp (hperm.mem_iff.mpr hmem)
  have := fill_peelOrder_contains (chooseMeta seed items.length) hL hC stack hpo p hp
  rw [← hph]
  exact this

/-- C1: a filter built from a descriptor contains every denied key and every
denied edge of that descriptor — no false negatives for items present at
construction. -/
theorem C1_no_false_negatives (d : Descriptor) (serial : Nat) (f : Filter)
    (hb : Filter.from_descriptor serial d = some f) :
    (∀ k ∈ d.denied_keys, f.contains k = true) ∧
      ∀ e ∈ d.denied_edges, f.contains_edge e.1 e.2 = true := by
  have hall := buildItems_contains serial (itemHashes d) f hb
  constructor
  · intro k hk
    exact hall (hash64 k) (by
      simp only [itemHashes, List.mem_append, List.mem_map]
      exact Or.inl ⟨k, hk, rfl⟩)
  · intro e he
    exact hall (hash64 (e.1 ++ e.2)) (by
      simp only [itemHashes, List.mem_append, List.mem_map]
      exact Or.inr ⟨e, he, rfl⟩)

/-- Witness for C1 at the spec's end-to-end inputs. -/
theorem C1_witness :
    Filter.from_descriptor 7 exDescriptor = some exFilter ∧
      exFilter.contains [1] = true ∧ exFilter.contains_edge [2] [3] = true := by
  refine ⟨by rfl, ?_, ?_⟩
  · exact (C1_no_false_negatives exDescriptor 7 exFilter (by rfl)).1 [1]
      (by simp [exDescriptor])
  · exact (C1_no_false_negatives exDescriptor 7 exFilter (by rfl)).2 ([2], [3])
      (by simp [exDescriptor])

/-- C6 counterexample: the claim that the swapped query always returns false
fails.  Here the denied edge is `([1,0], [0,31])`, the swapped pair is not
denied and the two keys differ, yet `contains_edge` on the swapped pair
returns true, because the 64-bit hash of the reversed concatenation collides
with that of the inserted edge (a false positive, which the filter design
admits at rate 2⁻³²). -/
theorem C6_counterexample :
    Filter.from_descriptor 0 exCollideDescriptor = some exCollideFilter ∧
      (([0, 31], [1, 0]) : Identity × Identity) ∉ exCollideDescriptor.denied_edges ∧
      ([1, 0] : Identity) ≠ [0, 31] ∧
      exCollideFilter.contains_edge [0, 31] [1, 0] = true :=
  ⟨rfl, by decide, by decide, rfl⟩

/-- C6 (amended): for every built filter whose descriptor denies the edge
(K2,K3), `contains_edge(K2,K3)` is true; `contains_edge` is computed solely
from the hash of the source-to-target concatenation (never the single-key
containment path), so the swapped query is false unless the reversed
concatenation happens to collide into a false positive — as at the generic
example, where the swapped query is false. -/
theorem C6_edge_asymmetry (d : Descriptor) (serial : Nat) (f : Filter)
    (a b : Identity) (hb : Filter.from_descriptor serial d = some f)
    (he : (a, b) ∈ d.denied_edges) :
    f.contains_edge a b = true ∧
      f.contains_edge b a = containsHash f.meta f.filter (hash64 (b ++ a)) ∧
      ((Filter.from_descriptor 0 exAsymDescriptor).map fun g =>
        (g.contains_edge [1] [2], g.contains_edge [2] [1])) = some (true, false) := by
  refine ⟨?_, rfl, rfl⟩
  exact buildItems_contains serial (itemHashes d) f hb (hash64 (a ++ b)) (by
    simp only [itemHashes, List.mem_append, List.mem_map]
    exact Or.inr ⟨(a, b), he, rfl⟩)

/-- Witness for C6 (amended) at the colliding example (first conjunct) and
the generic example (third conjunct). -/
theorem C6_witness :
    exCollideFilter.contains_edge [1, 0] [0, 31] = true ∧
      exCollideFilter.contains_edge [0, 31] [1, 0] =
        containsHash exCollideFilter.meta exCollideFilter.filter
          (hash64 ([0, 31] ++ [1, 0])) ∧
      ((Filter.from_descriptor 0 exAsymDescriptor).map fun g =>
        (g.contains_edge [1] [2], g.contains_edge [2] [1])) = some (true, false) :=
  C6_edge_asymmetry exCollideDescriptor 0 exCollideFilter [1, 0] [0, 31] (by rfl)
    (by simp [exCollideDescriptor])

/-- Decoding a base64 alphabet character recovers its 6-bit value. -/
theorem b64valOf_b64charOf (v : Nat) (hv : v < 64) : b64valOf (b64charOf v) = some v := by
  have hall : ∀ w : Fin 64, b64valOf (b64charOf w.val) = some w.val := by decide
  exact hall ⟨v, hv⟩

/-- No alphabet character is the padding character. -/
theorem b64charOf_ne_pad (v : Nat) (hv : v < 64) : b64charOf v ≠ 61 := by
  have hall : ∀ w : Fin 64, b64charOf w.val ≠ 61 := by decide
  exact hall ⟨v, hv⟩

/-- Strict standard base64 decoding undoes encoding on any byte sequence. -/
theorem b64decode_b64encode (bs : List Nat) :
    (∀ b ∈ bs, b < 256) → b64decode (b64encode bs) = some bs := by
  induction bs using b64encode.induct with
  | case1 => intro _; rfl
  | case2 b0 =>
    intro hb
    have h0 : b0 < 256 := hb b0 (by simp)
    have hv0 : b0 * 65536 / 262144 < 64 := by omega
    have hv1 : b0 * 65536 / 4096 % 64 < 64 := by omega
    simp only [b64encode, b64decode, bind, b64valOf_b64charOf _ hv0,
      b64valOf_b64charOf _ hv1, Option.some_bind]
    rw [if_pos trivial,
      if_pos (show True ∧ True ∧ b0 * 65536 / 4096 % 64 % 16 = 0 from
        ⟨trivial, trivial, by omega⟩)]
    have hbyte : b0 * 65536 / 262144 * 4 + b0 * 65536 / 4096 % 64 / 16 = b0 := by omega
    rw [hbyte]
  | case3 b0 b1 =>
    intro hb
    have h0 : b0 < 256 := hb b0 (by simp)
    have h1 : b1 < 256 := hb b1 (by simp)
    have hv0 : (b0 * 65536 + b1 * 256) / 262144 < 64 := by omega
    have hv1 : (b0 * 65536 + b1 * 256) / 4096 % 64 < 64 := by omega
    have hv2 : (b0 * 65536 + b1 * 256) / 64 % 64 < 64 := by omega
    simp only [b64encode, b64decode, bind, b64valOf_b64charOf _ hv0,
      b64valOf_b64charOf _ hv1, Option.some_bind]
    rw [if_neg (b64charOf_ne_pad _ hv2)]
    simp only [bind, b64valOf_b64charOf _ hv2, Option.some_bind]
    rw [if_pos trivial,
      if_pos (show True ∧ (b0 * 65536 + b1 * 256) / 64 % 64 % 4 = 0 from
        ⟨trivial, by omega⟩)]
    have hbyte0 : (b0 * 65536 + b1 * 256) / 262144 * 4 +
        (b0 * 65536 + b1 * 256) / 4096 % 64 / 16 = b0 := by omega
    have hbyte1 : (b0 * 65536 + b1 * 256) / 4096 % 64 % 16 * 16 +
        (b0 * 65536 + b1 * 256) / 64 % 64 / 4 = b1 := by omega
    rw [hbyte0, hbyte1]
  | case4 b0 b1 b2 b3 rest ih =>
    intro hb
    have h0 : b0 < 256 := hb b0 (by simp)
    have h1 : b1 < 256 := hb b1 (by simp)
    have h2 : b2 < 256 := hb b2 (by simp)
    have hv0 : (b0 * 65536 + b1 * 256 + b2) / 262144 < 64 := by omega
    have hv1 : (b0 * 65536 + b1 * 256 + b2) / 4096 % 64 < 64 := by omega
    have hv2 : (b0 * 65536 + b1 * 256 + b2) / 64 % 64 < 64 := by omega
    have hv3 : (b0 * 65536 + b1 * 256 + b2) % 64 < 64 := by omega
    have htail : b64decode (b64encode (b3 :: rest)) = some (b3 :: rest) :=
      ih fun x hx => hb x (by simp [List.mem_cons] at hx ⊢; tauto)
    simp only [b64encode, b64decode, bind, b64valOf_b64charOf _ hv0,
      b64valOf_b64charOf _ hv1, Option.some_bind]
    rw [if_neg (b64charOf_ne_pad _ hv2)]
    simp only [bind, b64valOf_b64charOf _ hv2, Option.some_bind]
    rw [if_neg (b64charOf_ne_pad _ hv3)]
    simp only [bind, b64valOf_b64charOf _ hv3, Option.some_bind, htail]
    have hbyte0 : (b0 * 65536 + b1 * 256 + b2) / 262144 * 4 +
        (b0 * 65536 + b1 * 256 + b2) / 4096 % 64 / 16 = b0 := by omega
    have hbyte1 : (b0 * 65536 + b1 * 256 + b2) / 4096 % 64 % 16 * 16 +
        (b0 * 65536 + b1 * 256 + b2) / 64 % 64 / 4 = b1 := by omega
    have hbyte2 : (b0 * 65536 + b1 * 256 + b2) / 64 % 64 % 4 * 64 +
        (b0 * 65536 + b1 * 256 + b2) % 64 = b2 := by omega
    rw [hbyte0, hbyte1, hbyte2]
  | case5 b0 b1 b2 =>
    intro hb
    have h0 : b0 < 256 := hb b0 (by simp)
    have h1 : b1 < 256 := hb b1 (by simp)
    have h2 : b2 < 256 := hb b2 (by simp)
    have hv0 : (b0 * 65536 + b1 * 256 + b2) / 262144 < 64 := by omega
    have hv1 : (b0 * 65536 + b1 * 256 + b2) / 4096 % 64 < 64 := by omega
    have hv2 : (b0 * 65536 + b1 * 256 + b2) / 64 % 64 < 64 := by omega
    have hv3 : (b0 * 65536 + b1 * 256 + b2) % 64 < 64 := by omega
    simp only [b64encode, b64decode, bind, b64valOf_b64charOf _ hv0,
      b64valOf_b64charOf _ hv1, Option.some_bind]
    rw [if_neg (b64charOf_ne_pad _ hv2)]
    simp only [bind, b64valOf_b64charOf _ hv2, Option.some_bind]
    rw [if_neg (b64charOf_ne_pad _ hv3)]
    simp only [bind, b64valOf_b64charOf _ hv3, Option.some_bind]
    have hbyte0 : (b0 * 65536 + b1 * 256 + b2) / 262144 * 4 +
        (b0 * 65536 + b1 * 256 + b2) / 4096 % 64 / 16 = b0 := by omega
    have hbyte1 : (b0 * 65536 + b1 * 256 + b2) / 4096 % 64 % 16 * 16 +
        (b0 * 65536 + b1 * 256 + b2) / 64 % 64 / 4 = b1 := by omega
    have hbyte2 : (b0 * 65536 + b1 * 256 + b2) / 64 % 64 % 4 * 64 +
        (b0 * 65536 + b1 * 256 + b2) % 64 = b2 := by omega
    rw [hbyte0, hbyte1, hbyte2]

/-- Every byte of a digest is a byte. -/
theorem hashBytes_lt (bs : List Nat) : ∀ x ∈ hashBytes bs, x < 256 := by
  intro x hx
  unfold hashBytes at hx
  obtain ⟨i, _, hix⟩ := List.mem_map.mp hx
  omega

/-- Fingerprints are 32-bit values. -/
theorem fingerprint_lt (seed h : Nat) : fingerprint seed h < 4294967296 := by
  unfold fingerprint mixSeed
  have h1 : (h * 11400714819323198485 + seed) % 2 ^ 64 < 2 ^ 64 :=
    Nat.mod_lt _ (by norm_num)
  omega

/-- A default read from a bounded array is bounded. -/
theorem getD_lt (l : List Nat) (i c : Nat) (hl : ∀ v ∈ l, v < c) (hc : 0 < c) :
    l.getD i 0 < c := by
  rcases Nat.lt_or_ge i l.length with hlt | hge
  · rw [List.getD_eq_getElem?_getD, List.getElem?_eq_getElem hlt]
    exact hl _ (List.getElem_mem hlt)
  · rw [List.getD_eq_getElem?_getD, List.getElem?_eq_none hge]
    exact hc

/-- Every value of a filled array is a 32-bit value. -/
theorem fill_lt (m : SegmentMeta) (stack : List (Nat × Nat)) :
    ∀ v ∈ fill m stack, v < 4294967296 := by
  induction stack with
  | nil =>
    intro v hv
    unfold fill at hv
    simp only [List.foldr_nil] at hv
    rw [List.eq_of_mem_replicate hv]
    omega
  | cons p rest ih =>
    intro v hv
    have hstep : fill m (p :: rest) = fillStep m p (fill m rest) := rfl
    rw [hstep] at hv
    unfold fillStep at hv
    dsimp only at hv
    rcases List.mem_or_eq_of_mem_set hv with hv1 | rfl
    · rcases List.mem_or_eq_of_mem_set hv1 with hv2 | rfl
      · exact ih v hv2
      · omega
    · have hb : (4294967296 : Nat) = 2 ^ 32 := by norm_num
      have hall : ∀ i, ((fill m rest).set p.2 0).getD i 0 < 4294967296 := by
        intro i
        refine getD_lt _ i _ ?_ (by omega)
        intro w hw
        rcases List.mem_or_eq_of_mem_set hw with hw1 | rfl
        · exact ih w hw1
        · omega
      rw [hb]
      refine Nat.xor_lt_two_pow (Nat.xor_lt_two_pow (Nat.xor_lt_two_pow ?_ ?_) ?_) ?_ <;>
        rw [← hb]
      · exact fingerprint_lt m.seed p.1
      · exact hall _
      · exact hall _
      · exact hall _

/-- The chosen array length is linearly bounded by the item count. -/
theorem arrayLength_le (seed n : Nat) :
    (chooseMeta seed n).arrayLength ≤ n * 115 / 100 + n / 64 + 6 := by
  unfold chooseMeta SegmentMeta.arrayLength
  dsimp only
  have hd : (n / 64 + 1 + 2) * ((n * 115 / 100 + 3) / (n / 64 + 1 + 2)) ≤
      n * 115 / 100 + 3 := by
    rw [Nat.mul_comm]
    exact Nat.div_mul_le_self _ _
  have hexp : (n / 64 + 1 + 2) * ((n * 115 / 100 + 3) / (n / 64 + 1 + 2) + 1) =
      (n / 64 + 1 + 2) * ((n * 115 / 100 + 3) / (n / 64 + 1 + 2)) + (n / 64 + 1 + 2) := by
    ring
  rw [hexp]
  omega

/-- A filter built from boundedly many items is well-formed. -/
theorem from_descriptor_wf (serial : Nat) (d : Descriptor) (f : Filter)
    (hb : Filter.from_descriptor serial d = some f) (hser : serial < 4294967296)
    (hn : (itemHashes d).length ≤ 1073741824) : f.wf := by
  obtain ⟨seed, hseed, hatt⟩ := buildItems_attempt serial (itemHashes d) f hb
  obtain ⟨stack, _, hf⟩ := buildAttempt_shape serial seed (itemHashes d) f hatt
  have hlen := fill_length (chooseMeta seed (itemHashes d).length) stack
  have harr := arrayLength_le seed (itemHashes d).length
  have hdivle : ((itemHashes d).length * 115 / 100 + 3) /
      ((itemHashes d).length / 64 + 1 + 2) ≤ (itemHashes d).length * 115 / 100 + 3 :=
    Nat.div_le_self _ _
  subst hf
  refine ⟨hser, by simp, by simp, ?_, ?_, ?_, ?_, fill_lt _ stack⟩
  · show seed < 18446744073709551616
    unfold attemptLimit at hseed
    omega
  · show (chooseMeta seed (itemHashes d).length).segmentLength < 4294967296
    unfold chooseMeta
    dsimp only
    omega
  · show (chooseMeta seed (itemHashes d).length).segmentCount < 4294967296
    unfold chooseMeta
    dsimp only
    omega
  · show (fill (chooseMeta seed (itemHashes d).length) stack).length < 4294967296
    rw [hlen]
    omega

/-- Replacing an already-empty signature is the identity. -/
theorem sig_nil_eta (f : Filter) (h : f.signature = []) :
    { f with signature := ([] : List Nat) } = f := by
  cases f
  simp_all

/-- Manifest generation, when the filter builds and the manifest-file check
passes, reduces to two writes and the generated manifest. -/
theorem manifestGenerateRun_eq (d : Descriptor) (km : PublicKeyManifest)
    (serial : Nat) (force : Bool) (mp dp : String) (fs : FileSys) (f : Filter)
    (hf : Filter.from_descriptor serial d = some f)
    (hopen : (!force && fs.hasFile mp) = false) :
    manifestGenerateRun d km serial force mp dp fs =
      ((fs.writeFile mp (.manifestDoc
          { serial := serial, hash := b64encode f.hash,
            signatures := km.public_keys.map ManifestSignature.ofKey })).writeFile dp
          (.bytes f.to_signing_bytes),
        .ok { serial := serial, hash := b64encode f.hash,
              signatures := km.public_keys.map ManifestSignature.ofKey }) := by
  unfold manifestGenerateRun open_output_file
  rw [hf]
  simp [hopen]

/-- Manifest generation, when the filter builds but the manifest-file check
fails, writes nothing and reports the file-exists error. -/
theorem manifestGenerateRun_err (d : Descriptor) (km : PublicKeyManifest)
    (serial : Nat) (force : Bool) (mp dp : String) (fs : FileSys) (f : Filter)
    (hf : Filter.from_descriptor serial d = some f)
    (hopen : (!force && fs.hasFile mp) = true) :
    manifestGenerateRun d km serial force mp dp fs = (fs, .error .fileExists) := by
  unfold manifestGenerateRun open_output_file
  rw [hf]
  simp [hopen]

/-- C5: manifest verification reports the hash verified exactly when the
base64-decoded recorded hash equals the hash of the filter rebuilt from the
signing data; and a manifest and data file produced together by manifest
generation from the same descriptor and serial pass the hash check (base64
round-trips the digest and the signing data round-trips the filter). -/
theorem C5_manifest_hash_check (d : Descriptor) (serial : Nat) (f : Filter)
    (km km2 : PublicKeyManifest) (hser : serial < 4294967296)
    (hn : (itemHashes d).length ≤ 1073741824)
    (hf : Filter.from_descriptor serial d = some f) :
    (∀ (man : Manifest) (dataBytes mh : List Nat) (filt : Filter) (fs0 : FileSys),
        b64decode man.hash = some mh →
        Filter.from_signing_bytes dataBytes = some filt →
        (manifestVerifyRun man km2 dataBytes fs0).2 =
          .ok { serial := man.serial, hash_verified := decide (mh = filt.hash),
                signatures := man.signatures.map fun s => s.verify filt.to_signing_bytes }) ∧
      (∀ (sigs : List ManifestSignature) (fs2 : FileSys),
        manifestVerifyRun
            { serial := serial, hash := b64encode f.hash, signatures := sigs }
            km2 f.to_signing_bytes fs2 =
          (fs2, .ok { serial := serial, hash_verified := true,
                      signatures := sigs.map fun s => s.verify f.to_signing_bytes })) ∧
      ∀ (force : Bool) (mp dp : String) (fs0 fs' : FileSys) (man : Manifest),
        manifestGenerateRun d km serial force mp dp fs0 = (fs', .ok man) →
        man.hash = b64encode f.hash ∧ man.serial = serial ∧
          (dp, FileContent.bytes f.to_signing_bytes) ∈ fs'.files := by
  obtain ⟨w1, w2, w3, w4, w5, w6, w7, w8⟩ := from_descriptor_wf serial d f hf hser hn
  have hsig := (from_descriptor_fields serial d f hf).2
  have hparse : Filter.from_signing_bytes f.to_signing_bytes = some f := by
    rw [from_signing_to_signing f w1 w4 w5 w6 w7 w8, sig_nil_eta f hsig]
  have hdec : b64decode (b64encode f.hash) = some f.hash :=
    b64decode_b64encode f.hash fun x hx => hashBytes_lt f.to_signing_bytes x hx
  refine ⟨?_, ?_, ?_⟩
  · intro man dataBytes mh filt fs0 hdec0 hparse0
    unfold manifestVerifyRun
    rw [show km2.public_key = Except.ok (hashBytes km2.public_keys.flatten) from rfl,
      hdec0, hparse0]
  · intro sigs fs2
    unfold manifestVerifyRun
    rw [show km2.public_key = Except.ok (hashBytes km2.public_keys.flatten) from rfl]
    dsimp only
    rw [hdec, hparse]
    simp
  · intro force mp dp fs0 fs' man hrun
    by_cases hex : (!force && fs0.hasFile mp) = true
    · rw [manifestGenerateRun_err d km serial force mp dp fs0 f hf hex,
        Prod.mk.injEq] at hrun
      exact absurd hrun.2 (by simp)
    · rw [Bool.not_eq_true] at hex
      rw [manifestGenerateRun_eq d km serial force mp dp fs0 f hf hex,
        Prod.mk.injEq] at hrun
      obtain ⟨hfs, hman⟩ := hrun
      obtain rfl := Except.ok.inj hman
      subst hfs
      exact ⟨rfl, rfl, by simp [FileSys.writeFile]⟩

/-- Witness for C5 at concrete inputs. -/
theorem C5_witness :
    (∀ (man : Manifest) (dataBytes mh : List Nat) (filt : Filter) (fs0 : FileSys),
        b64decode man.hash = some mh →
        Filter.from_signing_bytes dataBytes = some filt →
        (manifestVerifyRun man exKeyManifest dataBytes fs0).2 =
          .ok { serial := man.serial, hash_verified := decide (mh = filt.hash),
                signatures := man.signatures.map fun s => s.verify filt.to_signing_bytes }) ∧
      (∀ (sigs : List ManifestSignature) (fs2 : FileSys),
        manifestVerifyRun
            { serial := 7, hash := b64encode exFilter.hash, signatures := sigs }
            exKeyManifest exFilter.to_signing_bytes fs2 =
          (fs2, .ok { serial := 7, hash_verified := true,
                      signatures := sigs.map fun s => s.verify exFilter.to_signing_bytes })) ∧
      ∀ (force : Bool) (mp dp : String) (fs0 fs' : FileSys) (man : Manifest),
        manifestGenerateRun exDescriptor exKeyManifest 7 force mp dp fs0 =
          (fs', .ok man) →
        man.hash = b64encode exFilter.hash ∧ man.serial = 7 ∧
          (dp, FileContent.bytes exFilter.to_signing_bytes) ∈ fs'.files :=
  C5_manifest_hash_check exDescriptor 7 exFilter exKeyManifest exKeyManifest
    (by decide) (by decide) (by rfl)

end XorfGen
